import Mathlib

/-
Verification of the inference-orchestration core of the Lernplattform
repository (Go sources `internal/llm/provider.go` and `internal/llm/tutor.go`)
against its natural-language specification.

The Go code is shallowly embedded: pure computations become Lean functions on
`List`/`String`/`Nat`, the effectful generation calls become oracles passed in
as function arguments, and the observable behaviour of the retry loop and the
admission gate is captured as explicit event traces.  Machine `int` values in
the embedded code stay far from any overflow boundary, so they are modelled
as `Nat`.
-/

/- ===================== Go string helpers ===================== -/

/-- Model of Go `strings.ToLower` restricted to the ASCII range
(`Char.toLower` lowers exactly the ASCII uppercase letters; every concrete
name appearing in this development is ASCII). -/
def goToLower (s : String) : String := String.mk (s.toList.map Char.toLower)

/-- Does the character list `pat` occur at the head of `s`? -/
def listStartsWith : List Char → List Char → Bool
  | _, [] => true
  | [], _ :: _ => false
  | a :: s, b :: t => a == b && listStartsWith s t

/-- Does the character list `pat` occur anywhere inside `s`?  (Empty `pat`
occurs everywhere, matching Go `strings.Contains`.) -/
def listContainsSeq : List Char → List Char → Bool
  | [], pat => pat.isEmpty
  | s :: rest, pat => listStartsWith (s :: rest) pat || listContainsSeq rest pat

/-- Model of Go `strings.Contains`. -/
def goContains (s sub : String) : Bool := listContainsSeq s.toList sub.toList

/- ===================== Data model ===================== -/

/-- Embedding of `models.Document` (`internal/models/models.go`).  Only the
fields read by the embedded core (`Name`, `Content`) are carried; the
remaining fields (`ID`, `Path`, timestamps, ...) are never consulted by
`provider.go`/`tutor.go` and are omitted. -/
structure Document where
  Name : String
  Content : String
deriving DecidableEq, Repr, Inhabited

/-- Embedding of `models.Topic`.  Only the fields produced and consumed by the
analysis core (`parseTopicsFromResponse` fills exactly `Name`, `Description`,
`Difficulty`, `EstMinutes`) are carried. -/
structure Topic where
  Name : String
  Description : String
  Difficulty : Nat
  EstMinutes : Nat
deriving DecidableEq, Repr, Inhabited

/-- Embedding of `llm.GenerateResponse` (`provider.go`). -/
structure GenerateResponse where
  Content : String
  Model : String
  TotalTokens : Nat
  PromptTokens : Nat
  Done : Bool
deriving DecidableEq, Repr, Inhabited

/-- Embedding of `llm.StreamChunk` (`provider.go`); the Go `error` field is
modelled as an optional error message. -/
structure StreamChunk where
  Content : String
  Done : Bool
  Error : Option String
deriving DecidableEq, Repr, Inhabited

instance exceptDecEq {ε α : Type} [DecidableEq ε] [DecidableEq α] :
    DecidableEq (Except ε α)
  | .error e, .error f =>
    if h : e = f then .isTrue (by rw [h])
    else .isFalse (by intro hh; cases hh; exact h rfl)
  | .error _, .ok _ => .isFalse (by intro h; cases h)
  | .ok _, .error _ => .isFalse (by intro h; cases h)
  | .ok a, .ok b =>
    if h : a = b then .isTrue (by rw [h])
    else .isFalse (by intro hh; cases hh; exact h rfl)

/- ===================== Resilient call layer ===================== -/

/-- Classification applied by `generateWithRetry` at
`provider.go:234`: an error whose text contains `"terminated"` or `"500"`
signals a crashed/5xx backend. -/
def isCrashErr (e : String) : Bool :=
  goContains e "terminated" || goContains e "500"

/-- Outcome of one would-be `doGenerate` attempt, as seen by the retry loop:
the call result, plus the value `ctx.Err()` would return at the
post-classification check of `provider.go:241`. -/
structure Attempt where
  result : Except String GenerateResponse
  ctxErr : Option String
deriving DecidableEq, Repr

/-- Observable events of the retry loop: the backoff sleep at the top of each
iteration (`provider.go:223`), the `doGenerate` call itself
(`provider.go:226`), and the fixed 5-second crash cool-down
(`provider.go:236`). -/
inductive RetryEvent where
  | backoffSleep (secs : Nat)
  | attemptCall (n : Nat)
  | cooldownSleep (secs : Nat)
deriving DecidableEq, Repr

/-- Result of running the retry loop: the emitted event trace and the returned
value.  A Go `(nil, err)` return becomes `Except.error (some err)`; the
degenerate `(nil, nil)` return (possible only with zero attempts) becomes
`Except.error none`. -/
structure RetryOutcome where
  events : List RetryEvent
  result : Except (Option String) GenerateResponse
deriving DecidableEq, Repr

/-- Embedding of the loop body of `OllamaProvider.generateWithRetry`
(`provider.go:213-247`).  `pending` lists the outcomes of the remaining
would-be attempts (its length plays the role of `maxRetries - attempt + 1`),
`attemptNo` is the 1-based loop counter, and `lastErr` is the accumulated
`lastErr` variable. -/
def retryAux : List Attempt → Nat → Option String → RetryOutcome
  | [], _, lastErr => { events := [], result := Except.error lastErr }
  | a :: rest, attemptNo, lastErr =>
    let pre := if attemptNo > 1 then [RetryEvent.backoffSleep (attemptNo * 2)] else []
    let evs := pre ++ [RetryEvent.attemptCall attemptNo]
    match a.result with
    | .ok resp => { events := evs, result := Except.ok resp }
    | .error e =>
      if isCrashErr e then
        let r := retryAux rest (attemptNo + 1) (some e)
        { events := evs ++ [RetryEvent.cooldownSleep 5] ++ r.events, result := r.result }
      else if a.ctxErr.isSome then
        { events := evs, result := Except.error a.ctxErr }
      else
        let r := retryAux rest (attemptNo + 1) (some e)
        { events := evs ++ r.events, result := r.result }

/-- Embedding of `generateWithRetry` as called from `Generate`
(`provider.go:210`): the loop starts at attempt 1 with `lastErr = nil`; the
attempt list has length `maxRetries` (3 in the program). -/
def generateWithRetry (attempts : List Attempt) : RetryOutcome :=
  retryAux attempts 1 none

/-- Is this event a `doGenerate` call? -/
def isAttemptCall : RetryEvent → Bool
  | RetryEvent.attemptCall _ => true
  | _ => false

/-- Number of `doGenerate` calls recorded in a retry trace. -/
def attemptsMade (o : RetryOutcome) : Nat :=
  o.events.countP fun e => isAttemptCall e

/-- An attempt that fails with a transient classification: the call errors and
the loop goes on to the next attempt (crash/5xx-classified, or context not
cancelled at the check of `provider.go:241`). -/
def transientFail (a : Attempt) : Bool :=
  match a.result with
  | .ok _ => false
  | .error e => isCrashErr e || a.ctxErr.isNone

/-- The value of Go variable `lastErr` after the listed attempts, starting
from `d`. -/
def lastErrOf (pre : List Attempt) (d : Option String) : Option String :=
  pre.foldl
    (fun acc a =>
      match a.result with
      | .error e => some e
      | .ok _ => acc)
    d

/-- Sleep/call schedule over a run of transiently failing attempts, phrased
per the (amended) specification wording: no sleep before attempt 1, a backoff
of `n * 2` seconds immediately before attempt `n` for `n ≥ 2`, and a fixed
5-second cool-down immediately after every crash/5xx-classified failure. -/
def scheduleEvents : List Attempt → Nat → List RetryEvent
  | [], _ => []
  | a :: rest, n =>
    (if n > 1 then [RetryEvent.backoffSleep (n * 2)] else []) ++
      [RetryEvent.attemptCall n] ++
      (match a.result with
       | .error e => if isCrashErr e then [RetryEvent.cooldownSleep 5] else []
       | .ok _ => []) ++
      scheduleEvents rest (n + 1)

/- ===================== Admission gate traces ===================== -/

/-- Gate- and backend-visible events of one provider method call:
`acquireOllama`/`releaseOllama` on the capacity-1 semaphore
(`provider.go:16-24`) and an HTTP POST to the backend. -/
inductive GateEvent where
  | acquire
  | release
  | backendPost (path : String)
deriving DecidableEq, Repr

/-- The backend POST issued by each `doGenerate` call of the retry loop
(`provider.go:277`); sleeps touch neither the gate nor the backend. -/
def callToPost : RetryEvent → Option GateEvent
  | RetryEvent.attemptCall _ => some (GateEvent.backendPost "/api/generate")
  | _ => none

/-- Trace of `OllamaProvider.Generate` (`provider.go:205-211`): acquire the
semaphore, run the whole retry loop (one backend POST per attempt), release on
return. -/
def generateGateTrace (attempts : List Attempt) : List GateEvent :=
  [GateEvent.acquire] ++
    (generateWithRetry attempts).events.filterMap callToPost ++
    [GateEvent.release]

/-- Trace of `OllamaProvider.GenerateStream` (`provider.go:322-386`): the
request is POSTed directly; the semaphore is never touched. -/
def generateStreamGateTrace : List GateEvent :=
  [GateEvent.backendPost "/api/generate"]

/-- Trace of `OllamaProvider.Chat` (`provider.go:388-439`): the request is
POSTed directly; the semaphore is never touched. -/
def chatGateTrace : List GateEvent :=
  [GateEvent.backendPost "/api/chat"]

/- ===================== Streaming decoder ===================== -/

/-- One step of the JSON frame decoder inside the `GenerateStream` goroutine
(`provider.go:356-383`): a decoded frame, a clean end of stream (`io.EOF`), or
a decode error. -/
inductive DecodeItem where
  | frame (response : String) (done : Bool)
  | eof
  | err (e : String)
deriving DecidableEq, Repr

/-- Embedding of the decoder loop of `GenerateStream` (`provider.go:361-382`):
frames are republished as chunks in order; a `done` frame ends the sequence
after being emitted; `io.EOF` ends it silently; any other decode error is
emitted as a single error chunk and ends the sequence. -/
def streamChunks : List DecodeItem → List StreamChunk
  | [] => []
  | DecodeItem.eof :: _ => []
  | DecodeItem.err e :: _ => [{ Content := "", Done := false, Error := some e }]
  | DecodeItem.frame c d :: rest =>
    { Content := c, Done := d, Error := none } ::
      (if d then [] else streamChunks rest)

/- ===================== Structured extractor ===================== -/

/-- Model of Go `strings.Index` for a single character, on the character-list
view of the string (`none` plays the role of Go result `-1`). -/
def goIndexOf : List Char → Char → Option Nat
  | [], _ => none
  | c :: rest, t => if c == t then some 0 else (goIndexOf rest t).map (· + 1)

/-- Model of Go `strings.LastIndex` for a single character. -/
def goLastIndexOf : List Char → Char → Option Nat
  | [], _ => none
  | c :: rest, t =>
    match goLastIndexOf rest t with
    | some i => some (i + 1)
    | none => if c == t then some 0 else none

/-- Embedding of `extractJSON` (`tutor.go:480-487`): take the substring from
the first opening brace to the last closing brace inclusive; if either is
absent or the opening comes at or after the closing, return the literal
two-character empty object.
(Both delimiters are single-byte ASCII, so Go byte positions and character
positions cut the text at the same places.) -/
def extractJSON (text : List Char) : List Char :=
  match goIndexOf text '{', goLastIndexOf text '}' with
  | some s, some e => if s ≥ e then ['{', '}'] else (text.drop s).take (e + 1 - s)
  | some _, none => ['{', '}']
  | none, _ => ['{', '}']

/- ===================== Deduplication ===================== -/

/-- Common shape of `deduplicateDocuments` and `deduplicateTopics`
(`provider.go:769-779` and `provider.go:793-804`): walk the list keeping a
`seen` set of keys; keep an element iff its key is unseen. -/
def dedupByAux {α : Type} (key : α → String) (seen : List String) :
    List α → List α
  | [] => []
  | x :: xs =>
    if key x ∈ seen then dedupByAux key seen xs
    else x :: dedupByAux key (key x :: seen) xs

/-- Embedding of `deduplicateDocuments` (`provider.go:769-779`): the key is
the document name, compared exactly (no case folding in the source). -/
def deduplicateDocuments (docs : List Document) : List Document :=
  dedupByAux (fun d => d.Name) [] docs

/-- Embedding of `deduplicateTopics` (`provider.go:793-804`): the key is the
lower-cased topic name. -/
def deduplicateTopics (topics : List Topic) : List Topic :=
  dedupByAux (fun t => goToLower t.Name) [] topics

/-- Name heuristic of `categorizeDocuments` (`provider.go:781-791`): a
document whose lower-cased name contains "klausur" or "übung" is
exam/reference material. -/
def isExamName (name : String) : Bool :=
  goContains (goToLower name) "klausur" || goContains (goToLower name) "übung"

/-- Embedding of `categorizeDocuments` (`provider.go:781-791`): one pass
appending to `main` and `exams` equals two order-preserving filters. -/
def categorizeDocuments (docs : List Document) : List Document × List Document :=
  (docs.filter (fun d => !isExamName d.Name), docs.filter (fun d => isExamName d.Name))

/- ===================== Priority ranking sort ===================== -/

/-- The `priorityMap` lookup of `prioritizeWithExams` (`provider.go:736-739`):
the map sends the lower-cased ranking entry to its index, later entries
overwriting earlier ones, and is queried with the lower-cased topic name. -/
def priorityIndex (priority : List String) (name : String) : Option Nat :=
  priority.enum.foldl
    (fun acc p => if goToLower p.2 == goToLower name then some p.1 else acc)
    none

/-- Sort key of the bubble loop at `provider.go:745-761`: the rank index when
present, the sentinel 999 otherwise. -/
def priorityKey (priority : List String) (t : Topic) : Nat :=
  match priorityIndex priority t.Name with
  | some i => i
  | none => 999

/-- One outer iteration of the swap loop at `provider.go:745-761`, for a fixed
`i`: `cur` is the value currently at position `i`; scanning the suffix left to
right, whenever a strictly smaller key is found the two values swap. Returns
the final value at position `i` and the rewritten suffix. -/
def innerPass {α : Type} (key : α → Nat) (cur : α) : List α → α × List α
  | [] => (cur, [])
  | x :: xs =>
    if key x < key cur then
      let p := innerPass key x xs
      (p.1, cur :: p.2)
    else
      let p := innerPass key cur xs
      (p.1, x :: p.2)

/-- The full double loop of `provider.go:745-761` as structural recursion: the
outer loop index advances once per extracted element; the fuel starts at the
list length and the suffix length shrinks by one each round. -/
def selSortAux {α : Type} (key : α → Nat) : Nat → List α → List α
  | 0, l => l
  | _ + 1, [] => []
  | fuel + 1, x :: xs =>
    let p := innerPass key x xs
    p.1 :: selSortAux key fuel p.2

/-- The in-place sort of `sortedTopics` (`provider.go:741-761`) as a pure
function. -/
def selSort {α : Type} (key : α → Nat) (l : List α) : List α :=
  selSortAux key l.length l

/-- Reordering performed by `prioritizeWithExams` once a ranking has been
decoded (`provider.go:736-761`). -/
def sortTopicsByPriority (priority : List String) (topics : List Topic) : List Topic :=
  selSort (priorityKey priority) topics

/-- Embedding of `AgentPool.prioritizeWithExams` (`provider.go:662-765`)
after the generation call: `rankResult` is `some priority` when the backend
call succeeded and the extracted JSON unmarshalled into a ranking, and `none`
on any failure path (backend error at `provider.go:713` or unmarshal error at
`provider.go:731`), in which case the topics are returned unchanged. -/
def prioritizeWithExams (rankResult : Option (List String)) (topics : List Topic)
    (examDocs : List Document) : List Topic :=
  if examDocs.isEmpty || topics.isEmpty then topics
  else
    match rankResult with
    | none => topics
    | some priority => sortTopicsByPriority priority topics

/- ===================== Document analysis pipeline ===================== -/

/-- Embedding of `AgentPool.analyzeDocumentsSequentially`
(`provider.go:544-576`): `analyze` abstracts `analyzeOneDocument` (one
generation plus topic parse per document); failures are skipped, successes
are concatenated in input order. -/
def analyzeDocumentsSequentially (analyze : Document → Except String (List Topic)) :
    List Document → List Topic
  | [] => []
  | d :: ds =>
    match analyze d with
    | .ok ts => ts ++ analyzeDocumentsSequentially analyze ds
    | .error _ => analyzeDocumentsSequentially analyze ds

/-- Embedding of `AgentPool.AnalyzeDocumentsParallel` (`provider.go:501-541`),
the pipeline entry point: deduplicate, categorize, analyze main documents
sequentially, optionally re-rank with exam documents, deduplicate topics.
The Go function ends with `return finalTopics, nil`: the error component of
its result is always nil. -/
def AnalyzeDocumentsParallel (analyze : Document → Except String (List Topic))
    (rankResult : Option (List String)) (documents : List Document) :
    Except String (List Topic) :=
  let uniqueDocs := deduplicateDocuments documents
  let mainDocs := (categorizeDocuments uniqueDocs).1
  let examDocs := (categorizeDocuments uniqueDocs).2
  let mainTopics := analyzeDocumentsSequentially analyze mainDocs
  let finalTopics :=
    if examDocs.length > 0 && mainTopics.length > 0 then
      deduplicateTopics (prioritizeWithExams rankResult mainTopics examDocs)
    else
      deduplicateTopics mainTopics
  Except.ok finalTopics

/- ===================== Provider model state ===================== -/

/-- Mutable state of `OllamaProvider` as far as the embedded core can touch
it: `SetModel` writes only `defaultModel`; `baseURL` stands for the remaining
provider state. -/
structure ProviderState where
  baseURL : String
  defaultModel : String
deriving DecidableEq, Repr

/-- Embedding of `OllamaProvider.SetModel` (`provider.go:100-104`): the empty
string is ignored. -/
def SetModel (s : ProviderState) (model : String) : ProviderState :=
  if model ≠ "" then { s with defaultModel := model } else s

/-- Embedding of `OllamaProvider.GetCurrentModel` (`provider.go:107-109`). -/
def GetCurrentModel (s : ProviderState) : String := s.defaultModel

/-- Observable effect of one model-switching call: the model name the
generation actually ran under, the call result, and the provider state after
all deferred restores ran. -/
structure ModelSwitchTrace where
  usedModel : String
  result : Except String (List Topic)
  finalState : ProviderState
deriving Repr

/-- State-and-model framing of `AgentPool.analyzeOneDocument`
(`provider.go:624-659`): save the current model, switch to the fast model
when one is configured and differs, run the generation (abstracted by `gen`,
applied to the model in effect), and restore via the deferred `SetModel` on
every return path.  Prompt construction and topic parsing do not touch
provider state and are folded into `gen`. -/
def analyzeOneDocumentState (fastModel : String)
    (gen : String → Except String (List Topic)) (s : ProviderState) :
    ModelSwitchTrace :=
  let oldModel := GetCurrentModel s
  let switched := fastModel ≠ "" ∧ fastModel ≠ oldModel
  let s1 := if switched then SetModel s fastModel else s
  let res := gen (GetCurrentModel s1)
  let s2 := if switched then SetModel s1 oldModel else s1
  { usedModel := GetCurrentModel s1, result := res, finalState := s2 }

/-- State-and-model framing of `AgentPool.prioritizeWithExams`
(`provider.go:662-716`): after the early return for missing exam documents or
topics, the model switch at `provider.go:703-707` fires whenever a fast model
is configured (no inequality check here, unlike `analyzeOneDocument`), and the
deferred `SetModel` restores on every return path. -/
def prioritizeWithExamsState (fastModel : String)
    (gen : String → Except String (List Topic)) (s : ProviderState)
    (topics : List Topic) (examDocs : List Document) : ModelSwitchTrace :=
  if examDocs.isEmpty || topics.isEmpty then
    { usedModel := GetCurrentModel s, result := Except.ok topics, finalState := s }
  else
    let oldModel := GetCurrentModel s
    let switched := fastModel ≠ ""
    let s1 := if switched then SetModel s fastModel else s
    let res := gen (GetCurrentModel s1)
    let s2 := if switched then SetModel s1 oldModel else s1
    { usedModel := GetCurrentModel s1, result := res, finalState := s2 }

/- ===================== Concrete sample values ===================== -/

/-- A sample successful backend response used in concrete instantiations. -/
def okResp : GenerateResponse :=
  { Content := "ok", Model := "llama3.2:3b", TotalTokens := 0, PromptTokens := 0, Done := true }

/-- Sample topics used in concrete instantiations. -/
def tAlpha : Topic := { Name := "Alpha", Description := "a", Difficulty := 2, EstMinutes := 30 }

def tBeta : Topic := { Name := "Beta", Description := "b", Difficulty := 3, EstMinutes := 45 }

def tGamma : Topic := { Name := "Gamma", Description := "c", Difficulty := 1, EstMinutes := 20 }

/-- A sample exam document used in concrete instantiations. -/
def examDoc : Document := { Name := "Klausur 2023.pdf", Content := "Aufgabe 1" }

/-- View of a raw frame (partial text, done flag) as a decoder input. -/
def frameItem (p : String × Bool) : DecodeItem := DecodeItem.frame p.1 p.2

/-- The chunk the decoder republishes for a raw frame. -/
def frameChunk (p : String × Bool) : StreamChunk :=
  { Content := p.1, Done := p.2, Error := none }

/- ===================== Helper lemmas: retry layer ===================== -/

theorem lastErrOf_getLast (attempts : List Attempt) :
    ∀ (a : Attempt) (e : String) (d : Option String),
      attempts.getLast? = some a → a.result = Except.error e →
      lastErrOf attempts d = some e := by
  induction attempts with
  | nil => intro a e d h; simp at h
  | cons x xs ih =>
    intro a e d hlast hres
    cases xs with
    | nil =>
      simp [List.getLast?] at hlast
      subst hlast
      simp [lastErrOf, hres]
    | cons y ys =>
      have hlast2 : (y :: ys).getLast? = some a := by
        simpa [List.getLast?_cons_cons] using hlast
      have := ih a e (match x.result with | .error f => some f | .ok _ => d) hlast2 hres
      simpa [lastErrOf, List.foldl_cons] using this

theorem isAttemptCall_backoff (s : Nat) :
    isAttemptCall (RetryEvent.backoffSleep s) = false := rfl

theorem isAttemptCall_cooldown (s : Nat) :
    isAttemptCall (RetryEvent.cooldownSleep s) = false := rfl

theorem isAttemptCall_call (n : Nat) :
    isAttemptCall (RetryEvent.attemptCall n) = true := rfl

theorem countP_scheduleEvents (pre : List Attempt) :
    ∀ n : Nat, ((scheduleEvents pre n).countP fun e => isAttemptCall e) = pre.length := by
  induction pre with
  | nil => intro n; simp [scheduleEvents]
  | cons a rest ih =>
    intro n
    cases hres : a.result with
    | ok r =>
      by_cases hn : 1 < n <;>
        simp [scheduleEvents, hres, hn, List.countP_append, ih, List.countP_cons,
          isAttemptCall_backoff, isAttemptCall_call]
    | error e =>
      by_cases hc : isCrashErr e = true <;> by_cases hn : 1 < n <;>
        simp [scheduleEvents, hres, hc, hn, List.countP_append, ih, List.countP_cons,
          isAttemptCall_backoff, isAttemptCall_call, isAttemptCall_cooldown]

theorem retryAux_transient_run (pre : List Attempt) :
    ∀ (rest : List Attempt) (n : Nat) (d : Option String),
      (∀ a ∈ pre, transientFail a = true) →
      retryAux (pre ++ rest) n d =
        { events := scheduleEvents pre n ++
            (retryAux rest (n + pre.length) (lastErrOf pre d)).events,
          result := (retryAux rest (n + pre.length) (lastErrOf pre d)).result } := by
  induction pre with
  | nil => intro rest n d _; simp [scheduleEvents, lastErrOf]
  | cons a pre ih =>
    intro rest n d h
    have ha : transientFail a = true := h a (by simp)
    have hpre : ∀ b ∈ pre, transientFail b = true := fun b hb => h b (by simp [hb])
    cases hres : a.result with
    | ok r => simp [transientFail, hres] at ha
    | error e =>
      have harith : n + (pre.length + 1) = (n + 1) + pre.length := by omega
      by_cases hc : isCrashErr e = true
      · have := ih rest (n + 1) (some e) hpre
        simp [retryAux, hres, hc, scheduleEvents, lastErrOf, List.foldl_cons, this,
          List.append_assoc, harith]
      · have hctx : a.ctxErr.isNone = true := by
          simp [transientFail, hres, hc] at ha
          simpa using ha
        have hctx2 : a.ctxErr.isSome = false := by
          cases hcc : a.ctxErr <;> simp [hcc] at hctx ⊢
        have := ih rest (n + 1) (some e) hpre
        simp [retryAux, hres, hc, hctx2, scheduleEvents, lastErrOf, List.foldl_cons, this,
          List.append_assoc, harith]

/- ===================== Claims C2, C3, C7: retry layer ===================== -/

/-- C2: for every error sequence in which attempts 1..k-1 fail with a
transient classification (crash/5xx-classified, or context not cancelled) and
attempt k succeeds, `generateWithRetry` returns the success result of attempt
k and performs exactly k calls; for every sequence in which all attempts fail
transiently, it performs exactly as many calls as the retry ceiling (the
length of the attempt list, 3 in the program) and returns the error of the
last attempt. -/
theorem generateWithRetry_retry_contract :
    (∀ (pre post : List Attempt) (a : Attempt) (resp : GenerateResponse),
        (∀ b ∈ pre, transientFail b = true) →
        a.result = Except.ok resp →
        (generateWithRetry (pre ++ a :: post)).result = Except.ok resp ∧
          attemptsMade (generateWithRetry (pre ++ a :: post)) = pre.length + 1) ∧
    (∀ (attempts : List Attempt) (a : Attempt) (e : String),
        (∀ b ∈ attempts, transientFail b = true) →
        attempts.getLast? = some a →
        a.result = Except.error e →
        (generateWithRetry attempts).result = Except.error (some e) ∧
          attemptsMade (generateWithRetry attempts) = attempts.length) := by
  constructor
  · intro pre post a resp hpre hok
    have hrun := retryAux_transient_run pre (a :: post) 1 none hpre
    unfold generateWithRetry attemptsMade
    rw [hrun]
    constructor
    · simp [retryAux, hok]
    · simp [retryAux, hok, List.countP_append, countP_scheduleEvents,
        List.countP_cons, isAttemptCall_call, isAttemptCall_backoff,
        apply_ite (List.countP fun e => isAttemptCall e)]
  · intro attempts a e hall hlast hres
    have hrun := retryAux_transient_run attempts [] 1 none hall
    rw [List.append_nil] at hrun
    have hle : lastErrOf attempts none = some e :=
      lastErrOf_getLast attempts a e none hlast hres
    unfold generateWithRetry attemptsMade
    rw [hrun]
    constructor
    · simp [retryAux, hle]
    · simp [retryAux, List.countP_append, countP_scheduleEvents]

/-- Witness for C2: a concrete run in which attempt 1 fails transiently and
attempt 2 succeeds (2 calls, success returned), and a concrete run in which
all three attempts fail transiently (3 calls, last error returned). -/
theorem generateWithRetry_retry_contract_witness :
    ((generateWithRetry
        [{ result := Except.error "connection refused", ctxErr := none },
         { result := Except.ok okResp, ctxErr := none },
         { result := Except.error "x", ctxErr := none }]).result = Except.ok okResp ∧
      attemptsMade (generateWithRetry
        [{ result := Except.error "connection refused", ctxErr := none },
         { result := Except.ok okResp, ctxErr := none },
         { result := Except.error "x", ctxErr := none }]) = 2) ∧
    ((generateWithRetry
        [{ result := Except.error "e1", ctxErr := none },
         { result := Except.error "runner terminated", ctxErr := none },
         { result := Except.error "ollama-fehler (500): boom", ctxErr := some "deadline" }]).result =
        Except.error (some "ollama-fehler (500): boom") ∧
      attemptsMade (generateWithRetry
        [{ result := Except.error "e1", ctxErr := none },
         { result := Except.error "runner terminated", ctxErr := none },
         { result := Except.error "ollama-fehler (500): boom", ctxErr := some "deadline" }]) = 3) := by
  constructor
  · exact generateWithRetry_retry_contract.1
      [{ result := Except.error "connection refused", ctxErr := none }]
      [{ result := Except.error "x", ctxErr := none }]
      { result := Except.ok okResp, ctxErr := none } okResp (by decide) rfl
  · exact generateWithRetry_retry_contract.2
      [{ result := Except.error "e1", ctxErr := none },
       { result := Except.error "runner terminated", ctxErr := none },
       { result := Except.error "ollama-fehler (500): boom", ctxErr := some "deadline" }]
      { result := Except.error "ollama-fehler (500): boom", ctxErr := some "deadline" }
      "ollama-fehler (500): boom" (by decide) (by decide) rfl

/-- C3 counterexample: attempt 1 fails with a crash-classified error
("runner terminated") while the caller's context is already cancelled.  The
claim predicts the loop stops immediately (1 attempt) and surfaces the
cancellation; the code instead takes the crash branch (`continue` at
`provider.go:237`) before the context check, performs a second attempt, and
returns its success. -/
theorem generateWithRetry_cancel_counterexample :
    attemptsMade (generateWithRetry
      [{ result := Except.error "runner terminated", ctxErr := some "context canceled" },
       { result := Except.ok okResp, ctxErr := none }]) = 2 ∧
    (generateWithRetry
      [{ result := Except.error "runner terminated", ctxErr := some "context canceled" },
       { result := Except.ok okResp, ctxErr := none }]).result = Except.ok okResp := by
  decide

/-- C3 (amended): cancellation stops the retry loop only when the failing
attempt's error is NOT crash/5xx-classified; in that case the loop returns the
context's error immediately after that attempt, with no further attempt.
(When the error is crash-classified the loop continues without consulting the
context.) -/
theorem generateWithRetry_cancel_amended
    (pre post : List Attempt) (a : Attempt) (e c : String)
    (hpre : ∀ b ∈ pre, transientFail b = true)
    (hres : a.result = Except.error e)
    (hcrash : isCrashErr e = false)
    (hctx : a.ctxErr = some c) :
    (generateWithRetry (pre ++ a :: post)).result = Except.error (some c) ∧
      attemptsMade (generateWithRetry (pre ++ a :: post)) = pre.length + 1 := by
  have hrun := retryAux_transient_run pre (a :: post) 1 none hpre
  unfold generateWithRetry attemptsMade
  rw [hrun]
  constructor
  · simp [retryAux, hres, hcrash, hctx]
  · simp [retryAux, hres, hcrash, hctx, List.countP_append, countP_scheduleEvents,
      List.countP_cons, isAttemptCall_call, isAttemptCall_backoff,
      apply_ite (List.countP fun e => isAttemptCall e)]

/-- Witness for the amended C3: attempt 1 fails transiently, attempt 2 fails
with a non-crash error under a cancelled context; the run stops after 2
attempts and surfaces the context error. -/
theorem generateWithRetry_cancel_amended_witness :
    (generateWithRetry
      [{ result := Except.error "connection refused", ctxErr := none },
       { result := Except.error "net closed", ctxErr := some "context canceled" },
       { result := Except.ok okResp, ctxErr := none }]).result =
      Except.error (some "context canceled") ∧
    attemptsMade (generateWithRetry
      [{ result := Except.error "connection refused", ctxErr := none },
       { result := Except.error "net closed", ctxErr := some "context canceled" },
       { result := Except.ok okResp, ctxErr := none }]) = 2 :=
  generateWithRetry_cancel_amended
    [{ result := Except.error "connection refused", ctxErr := none }]
    [{ result := Except.ok okResp, ctxErr := none }]
    { result := Except.error "net closed", ctxErr := some "context canceled" }
    "net closed" "context canceled" (by decide) rfl (by decide) rfl

/-- C7 counterexample: after a crash-classified failure of attempt 1, the
claim predicts only the fixed 5-second cool-down before attempt 2; the code
additionally sleeps the backoff (2 × 2 = 4 seconds) at the top of the next
iteration (`provider.go:223`), so the trace between the two calls is
[cool-down 5s, backoff 4s], not [cool-down 5s]. -/
theorem generateWithRetry_sleep_counterexample :
    (generateWithRetry
      [{ result := Except.error "runner terminated", ctxErr := none },
       { result := Except.ok okResp, ctxErr := none }]).events =
      [RetryEvent.attemptCall 1, RetryEvent.cooldownSleep 5,
       RetryEvent.backoffSleep 4, RetryEvent.attemptCall 2] ∧
    [RetryEvent.attemptCall 1, RetryEvent.cooldownSleep 5,
       RetryEvent.backoffSleep 4, RetryEvent.attemptCall 2] ≠
      [RetryEvent.attemptCall 1, RetryEvent.cooldownSleep 5, RetryEvent.attemptCall 2] := by
  decide

/-- C7 (amended): over any run of transiently failing attempts the sleep
schedule is: no sleep before attempt 1; a backoff of n × 2 seconds immediately
before attempt n for every n ≥ 2; and additionally a fixed 5-second cool-down
immediately after every crash/5xx-classified failure (also after the final
attempt).  After a crash-classified failure both the cool-down and the next
backoff elapse before the next call. -/
theorem generateWithRetry_sleep_schedule (attempts : List Attempt)
    (h : ∀ a ∈ attempts, transientFail a = true) :
    (generateWithRetry attempts).events = scheduleEvents attempts 1 := by
  have hrun := retryAux_transient_run attempts [] 1 none h
  rw [List.append_nil] at hrun
  unfold generateWithRetry
  rw [hrun]
  simp [retryAux]

/-- Witness for the amended C7: a crash failure, an ordinary transient
failure, then a crash failure; the schedule shows call 1, cool-down,
backoff 4s, call 2, backoff 6s, call 3, cool-down. -/
theorem generateWithRetry_sleep_schedule_witness :
    (generateWithRetry
      [{ result := Except.error "runner terminated", ctxErr := none },
       { result := Except.error "tls handshake", ctxErr := none },
       { result := Except.error "ollama-fehler (500): x", ctxErr := none }]).events =
      scheduleEvents
        [{ result := Except.error "runner terminated", ctxErr := none },
         { result := Except.error "tls handshake", ctxErr := none },
         { result := Except.error "ollama-fehler (500): x", ctxErr := none }] 1 ∧
    scheduleEvents
        [{ result := Except.error "runner terminated", ctxErr := none },
         { result := Except.error "tls handshake", ctxErr := none },
         { result := Except.error "ollama-fehler (500): x", ctxErr := none }] 1 =
      [RetryEvent.attemptCall 1, RetryEvent.cooldownSleep 5,
       RetryEvent.backoffSleep 4, RetryEvent.attemptCall 2,
       RetryEvent.backoffSleep 6, RetryEvent.attemptCall 3,
       RetryEvent.cooldownSleep 5] :=
  ⟨generateWithRetry_sleep_schedule
      [{ result := Except.error "runner terminated", ctxErr := none },
       { result := Except.error "tls handshake", ctxErr := none },
       { result := Except.error "ollama-fehler (500): x", ctxErr := none }] (by decide),
    by decide⟩

/- ===================== Claim C1: admission gate ===================== -/

theorem callToPost_no_acquire (l : List RetryEvent) :
    GateEvent.acquire ∉ l.filterMap callToPost := by
  intro hmem
  rcases List.mem_filterMap.mp hmem with ⟨x, _, hx⟩
  cases x <;> simp [callToPost] at hx

theorem callToPost_no_release (l : List RetryEvent) :
    GateEvent.release ∉ l.filterMap callToPost := by
  intro hmem
  rcases List.mem_filterMap.mp hmem with ⟨x, _, hx⟩
  cases x <;> simp [callToPost] at hx

/-- C1 counterexample: `Chat` and `GenerateStream` each issue their backend
POST without ever acquiring the capacity-1 admission semaphore — only the
single-shot `Generate` path acquires it (`provider.go:207`), so not every
generation call is serialized by the gate. -/
theorem admissionGate_counterexample :
    GateEvent.backendPost "/api/chat" ∈ chatGateTrace ∧
    GateEvent.acquire ∉ chatGateTrace ∧
    GateEvent.backendPost "/api/generate" ∈ generateStreamGateTrace ∧
    GateEvent.acquire ∉ generateStreamGateTrace := by
  refine ⟨?_, ?_, ?_, ?_⟩ <;> simp [chatGateTrace, generateStreamGateTrace]

/-- C1 (amended): only the single-shot `Generate` call passes through the
admission gate — its trace acquires the semaphore first, releases it last,
and pairs the two exactly once, with every backend POST of the whole retry
loop in between; `Chat` and `GenerateStream` never touch the gate. -/
theorem admissionGate_amended (attempts : List Attempt) :
    (generateGateTrace attempts).head? = some GateEvent.acquire ∧
    (generateGateTrace attempts).getLast? = some GateEvent.release ∧
    (generateGateTrace attempts).count GateEvent.acquire = 1 ∧
    (generateGateTrace attempts).count GateEvent.release = 1 ∧
    GateEvent.acquire ∉ chatGateTrace ∧
    GateEvent.acquire ∉ generateStreamGateTrace := by
  refine ⟨?_, ?_, ?_, ?_, ?_, ?_⟩
  · simp [generateGateTrace]
  · rw [generateGateTrace]
    rw [show [GateEvent.acquire] ++ (generateWithRetry attempts).events.filterMap callToPost
          ++ [GateEvent.release]
        = ([GateEvent.acquire] ++ (generateWithRetry attempts).events.filterMap callToPost)
          ++ [GateEvent.release] by simp]
    exact List.getLast?_concat _
  · rw [generateGateTrace]
    simp [List.count_append, List.count_cons, List.count_eq_zero.mpr (callToPost_no_acquire _),
      List.count_singleton]
  · rw [generateGateTrace]
    simp [List.count_append, List.count_cons, List.count_eq_zero.mpr (callToPost_no_release _),
      List.count_singleton]
  · simp [chatGateTrace]
  · simp [generateStreamGateTrace]

/- ===================== Claim C9: streaming decoder ===================== -/

theorem streamChunks_frames (pre : List (String × Bool)) :
    ∀ rest : List DecodeItem, (∀ p ∈ pre, p.2 = false) →
      streamChunks (pre.map frameItem ++ rest) = pre.map frameChunk ++ streamChunks rest := by
  induction pre with
  | nil => intro rest _; simp
  | cons p ps ih =>
    intro rest h
    have hp : p.2 = false := h p (by simp)
    obtain ⟨s, b⟩ := p
    simp only at hp
    subst hp
    have hps : ∀ q ∈ ps, q.2 = false := fun q hq => h q (by simp [hq])
    simp [frameItem, frameChunk, streamChunks, ih rest hps]

/-- C9 counterexample: a stream holding one non-terminal frame followed by a
clean end of stream (`io.EOF`, e.g. the connection closing early) yields a
finite chunk sequence whose last chunk has `done = false` and no error —
contradicting the claim that the last chunk always has `done = true` or
carries an error. -/
theorem streamChunks_counterexample :
    streamChunks [DecodeItem.frame "Hallo" false, DecodeItem.eof] =
      [{ Content := "Hallo", Done := false, Error := none }] ∧
    (StreamChunk.Done { Content := "Hallo", Done := false, Error := none }) = false ∧
    (StreamChunk.Error { Content := "Hallo", Done := false, Error := none }) = none := by
  refine ⟨?_, rfl, rfl⟩
  rfl

/-- C9 (amended): the decoder republishes frames in order as a finite chunk
sequence.  After any run of non-terminal frames: a `done` frame is emitted as
a final `done = true` chunk and ends the sequence (later items are ignored);
a decode error other than clean end-of-stream is emitted as a single
error-bearing chunk that ends the sequence; a clean end-of-stream (`io.EOF`)
ends the sequence silently, so in that case the last chunk (the last frame)
has neither `done = true` nor an error. -/
theorem streamChunks_amended :
    (∀ (pre : List (String × Bool)) (c : String) (rest : List DecodeItem),
        (∀ p ∈ pre, p.2 = false) →
        streamChunks (pre.map frameItem ++ DecodeItem.frame c true :: rest) =
          pre.map frameChunk ++ [{ Content := c, Done := true, Error := none }]) ∧
    (∀ (pre : List (String × Bool)) (e : String) (rest : List DecodeItem),
        (∀ p ∈ pre, p.2 = false) →
        streamChunks (pre.map frameItem ++ DecodeItem.err e :: rest) =
          pre.map frameChunk ++ [{ Content := "", Done := false, Error := some e }]) ∧
    (∀ (pre : List (String × Bool)) (rest : List DecodeItem),
        (∀ p ∈ pre, p.2 = false) →
        streamChunks (pre.map frameItem ++ DecodeItem.eof :: rest) =
          pre.map frameChunk) := by
  refine ⟨?_, ?_, ?_⟩
  · intro pre c rest h
    rw [streamChunks_frames pre _ h]
    simp [streamChunks]
  · intro pre e rest h
    rw [streamChunks_frames pre _ h]
    simp [streamChunks]
  · intro pre rest h
    rw [streamChunks_frames pre _ h]
    simp [streamChunks]

/-- Witness for the amended C9, on the specification's own scenario: five
partial frames followed by a terminal `done` frame yield exactly five content
chunks and a sixth `done`-marked chunk, ending the sequence. -/
theorem streamChunks_amended_witness :
    streamChunks
        ([("T1", false), ("T2", false), ("T3", false), ("T4", false), ("T5", false)].map
            frameItem ++ DecodeItem.frame "" true :: []) =
      [("T1", false), ("T2", false), ("T3", false), ("T4", false), ("T5", false)].map
          frameChunk ++ [{ Content := "", Done := true, Error := none }] ∧
    [("T1", false), ("T2", false), ("T3", false), ("T4", false), ("T5", false)].map
          frameChunk ++ [{ Content := "", Done := true, Error := none }] =
      [{ Content := "T1", Done := false, Error := none },
       { Content := "T2", Done := false, Error := none },
       { Content := "T3", Done := false, Error := none },
       { Content := "T4", Done := false, Error := none },
       { Content := "T5", Done := false, Error := none },
       { Content := "", Done := true, Error := none }] :=
  ⟨streamChunks_amended.1
      [("T1", false), ("T2", false), ("T3", false), ("T4", false), ("T5", false)] "" []
      (by decide), by decide⟩

/- ===================== Claim C5: structured extractor ===================== -/

theorem goIndexOf_eq_none_iff (l : List Char) (c : Char) :
    goIndexOf l c = none ↔ c ∉ l := by
  induction l with
  | nil => simp [goIndexOf]
  | cons x xs ih =>
    by_cases hx : x = c
    · subst hx; simp [goIndexOf]
    · simp only [goIndexOf, beq_iff_eq, if_neg hx]
      constructor
      · intro h
        have hnone : goIndexOf xs c = none := by
          cases hg : goIndexOf xs c with
          | none => rfl
          | some i => rw [hg] at h; simp at h
        intro hmem
        rcases List.mem_cons.mp hmem with h1 | h1
        · exact hx h1.symm
        · exact ih.mp hnone h1
      · intro h
        have hnx : c ∉ xs := fun hm => h (List.mem_cons_of_mem _ hm)
        rw [ih.mpr hnx]
        rfl

theorem goLastIndexOf_eq_none_iff (l : List Char) (c : Char) :
    goLastIndexOf l c = none ↔ c ∉ l := by
  induction l with
  | nil => simp [goLastIndexOf]
  | cons x xs ih =>
    cases hrec : goLastIndexOf xs c with
    | some i =>
      have hmem : c ∈ xs := by
        by_contra hn
        rw [(ih.mpr hn : goLastIndexOf xs c = none)] at hrec
        cases hrec
      have hstep : goLastIndexOf (x :: xs) c = some (i + 1) := by
        simp [goLastIndexOf, hrec]
      rw [hstep]
      simp [List.mem_cons, hmem]
    | none =>
      have hnm : c ∉ xs := ih.mp hrec
      by_cases hx : x = c
      · subst hx
        have hstep : goLastIndexOf (x :: xs) x = some 0 := by
          simp [goLastIndexOf, hrec]
        rw [hstep]
        simp
      · have hstep : goLastIndexOf (x :: xs) c = none := by
          simp [goLastIndexOf, hrec, hx]
        rw [hstep]
        simp only [List.mem_cons, not_or, true_iff]
        exact ⟨fun hh => hx hh.symm, hnm⟩

theorem goIndexOf_append_not_mem (pre l : List Char) (c : Char) :
    c ∉ pre → goIndexOf (pre ++ l) c = (goIndexOf l c).map (· + pre.length) := by
  induction pre with
  | nil => intro _; simp
  | cons x xs ih =>
    intro h
    have hx : ¬x = c := by intro e; exact h (by simp [e])
    have h2 : c ∉ xs := fun hm => h (by simp [hm])
    cases hl : goIndexOf l c with
    | none => simp [goIndexOf, hx, ih h2, hl]
    | some i =>
      simp [goIndexOf, hx, ih h2, hl]
      omega

theorem goLastIndexOf_append_not_mem (l post : List Char) (c : Char) :
    c ∉ post → goLastIndexOf (l ++ post) c = goLastIndexOf l c := by
  induction l with
  | nil =>
    intro h
    simp [goLastIndexOf, (goLastIndexOf_eq_none_iff post c).mpr h]
  | cons x xs ih =>
    intro h
    have ih2 := ih h
    simp only [List.cons_append, goLastIndexOf, List.append_eq]
    rw [ih2]

theorem goLastIndexOf_getLast (l : List Char) (c : Char) :
    l.getLast? = some c → goLastIndexOf l c = some (l.length - 1) := by
  induction l with
  | nil => intro h; simp at h
  | cons x xs ih =>
    intro h
    cases hxs : xs with
    | nil =>
      subst hxs
      simp [List.getLast?] at h
      subst h
      simp [goLastIndexOf]
    | cons y ys =>
      rw [← hxs]
      have hne : xs ≠ [] := by rw [hxs]; exact List.cons_ne_nil y ys
      have h2 : xs.getLast? = some c := by
        rw [List.getLast?_eq_getLast_of_ne_nil hne] at *
        rw [show (x :: xs).getLast? = some ((x :: xs).getLast (List.cons_ne_nil x xs)) from
          List.getLast?_eq_getLast_of_ne_nil _] at h
        rw [show (x :: xs).getLast (List.cons_ne_nil x xs) = xs.getLast hne from
          List.getLast_cons hne] at h
        exact h
      have hrec := ih h2
      have hlen : 1 ≤ xs.length := by rw [hxs]; simp
      have hstep : goLastIndexOf (x :: xs) c = some (xs.length - 1 + 1) := by
        simp [goLastIndexOf, hrec]
      rw [hstep]
      simp only [List.length_cons]
      congr 1
      omega

theorem goIndexOf_mem_spec (l : List Char) (c : Char) :
    ∀ i, goIndexOf l c = some i → i < l.length ∧ l[i]? = some c := by
  induction l with
  | nil => intro i h; simp [goIndexOf] at h
  | cons x xs ih =>
    intro i h
    by_cases hx : x = c
    · subst hx
      simp [goIndexOf] at h
      subst h
      simp
    · simp only [goIndexOf, beq_iff_eq, if_neg hx] at h
      cases hg : goIndexOf xs c with
      | none => rw [hg] at h; simp at h
      | some j =>
        rw [hg] at h
        simp at h
        obtain ⟨hjl, hjg⟩ := ih j hg
        subst h
        constructor
        · simp; omega
        · simpa using hjg

theorem goLastIndexOf_mem_spec (l : List Char) (c : Char) :
    ∀ i, goLastIndexOf l c = some i → i < l.length ∧ l[i]? = some c := by
  induction l with
  | nil => intro i h; simp [goLastIndexOf] at h
  | cons x xs ih =>
    intro i h
    cases hg : goLastIndexOf xs c with
    | some j =>
      simp only [goLastIndexOf, hg] at h
      obtain ⟨hjl, hjg⟩ := ih j hg
      cases h
      constructor
      · simp; omega
      · simpa using hjg
    | none =>
      simp only [goLastIndexOf, hg] at h
      by_cases hx : x = c
      · subst hx
        simp at h
        subst h
        simp
      · simp [hx] at h

/-- C5: for every input text the extractor takes the substring from the first
opening brace to the last closing brace inclusive, so a brace-delimited
payload surrounded by prose free of the respective delimiters is recovered
exactly; and when either delimiter is absent, or every opening brace lies
after every closing brace, the result is the empty-object literal (which
decodes to an absent record set) rather than an error. -/
theorem extractJSON_spec :
    (∀ (pre payload post : List Char),
        '{' ∉ pre → '}' ∉ post →
        payload.head? = some '{' → payload.getLast? = some '}' →
        extractJSON (pre ++ payload ++ post) = payload) ∧
    (∀ text : List Char,
        ('{' ∉ text ∨ '}' ∉ text ∨
          (∀ i j : Nat, text[i]? = some '{' → text[j]? = some '}' → j < i)) →
        extractJSON text = ['{', '}']) := by
  constructor
  · intro pre payload post hpre hpost hhead hlast
    obtain ⟨mid, rfl⟩ : ∃ mid, payload = '{' :: mid := by
      cases payload with
      | nil => simp at hhead
      | cons p ps =>
        simp at hhead
        exact ⟨ps, by rw [hhead]⟩
    have hplen : mid ≠ [] := by
      intro hmid
      subst hmid
      simp [List.getLast?] at hlast
    have hlidx : goLastIndexOf (pre ++ '{' :: mid ++ post) '}' =
        some (pre.length + (mid.length + 1) - 1) := by
      rw [goLastIndexOf_append_not_mem _ post _ hpost]
      have hl2 : (pre ++ '{' :: mid).getLast? = some '}' := by
        rw [List.getLast?_append]
        rw [hlast]
        rfl
      rw [goLastIndexOf_getLast _ _ hl2]
      simp
    have hidx : goIndexOf (pre ++ '{' :: mid ++ post) '{' = some pre.length := by
      rw [List.append_assoc]
      rw [goIndexOf_append_not_mem pre _ _ hpre]
      simp [goIndexOf]
    have hmidpos : 0 < mid.length := List.length_pos.mpr hplen
    have hge : ¬pre.length ≥ pre.length + (mid.length + 1) - 1 := by omega
    simp only [extractJSON, hidx, hlidx, ge_iff_le, if_neg hge]
    rw [List.append_assoc]
    rw [show pre.length + (mid.length + 1) - 1 + 1 - pre.length = ('{' :: mid).length by
      simp; omega]
    rw [show ('{' :: mid ++ post) = (('{' :: mid) ++ post) from rfl] at *
    rw [List.drop_left, List.take_left]
  · intro text h
    rcases h with h | h | h
    · have h1 := (goIndexOf_eq_none_iff text '{').mpr h
      simp [extractJSON, h1]
    · have h2 := (goLastIndexOf_eq_none_iff text '}').mpr h
      cases hg : goIndexOf text '{' <;> simp [extractJSON, hg, h2]
    · cases hg : goIndexOf text '{' with
      | none => simp [extractJSON, hg]
      | some s =>
        cases hl : goLastIndexOf text '}' with
        | none => simp [extractJSON, hg, hl]
        | some e =>
          obtain ⟨_, hs⟩ := goIndexOf_mem_spec text '{' s hg
          obtain ⟨_, he⟩ := goLastIndexOf_mem_spec text '}' e hl
          have hlt : e < s := h s e hs he
          simp only [extractJSON, hg, hl, ge_iff_le]
          rw [if_pos (Nat.le_of_lt hlt)]

/-- Witness for C5: prose around a well-formed object is stripped and the
payload recovered exactly; text with no braces yields the empty object. -/
theorem extractJSON_spec_witness :
    extractJSON ("Hier ist die Antwort: ".toList ++
        "\x7b\"topics\": []\x7d".toList ++ " Danke.".toList) =
      "\x7b\"topics\": []\x7d".toList ∧
    extractJSON ("kein JSON hier".toList) = ['{', '}'] := by
  constructor
  · exact extractJSON_spec.1 ("Hier ist die Antwort: ".toList)
      ("\x7b\"topics\": []\x7d".toList) (" Danke.".toList)
      (by decide) (by decide) (by decide) (by decide)
  · exact extractJSON_spec.2 ("kein JSON hier".toList) (Or.inl (by decide))

/- ===================== Claim C8: deduplication ===================== -/

theorem dedupByAux_sublist {α : Type} (key : α → String) :
    ∀ (l : List α) (seen : List String), List.Sublist (dedupByAux key seen l) l := by
  intro l
  induction l with
  | nil => intro seen; simp [dedupByAux]
  | cons x xs ih =>
    intro seen
    by_cases hx : key x ∈ seen
    · simp only [dedupByAux, if_pos hx]
      exact List.Sublist.cons x (ih seen)
    · simp only [dedupByAux, if_neg hx]
      exact List.Sublist.cons₂ x (ih (key x :: seen))

theorem dedupByAux_not_seen {α : Type} (key : α → String) :
    ∀ (l : List α) (seen : List String) (x : α),
      x ∈ dedupByAux key seen l → key x ∉ seen := by
  intro l
  induction l with
  | nil => intro seen x h; simp [dedupByAux] at h
  | cons a as ih =>
    intro seen x h
    by_cases ha : key a ∈ seen
    · simp only [dedupByAux, if_pos ha] at h
      exact ih seen x h
    · simp only [dedupByAux, if_neg ha] at h
      rcases List.mem_cons.mp h with rfl | h2
      · exact ha
      · have h3 := ih (key a :: seen) x h2
        exact fun hs => h3 (List.mem_cons_of_mem _ hs)

theorem dedupByAux_pairwise {α : Type} (key : α → String) :
    ∀ (l : List α) (seen : List String),
      (dedupByAux key seen l).Pairwise (fun a b => key a ≠ key b) := by
  intro l
  induction l with
  | nil => intro seen; simp [dedupByAux]
  | cons a as ih =>
    intro seen
    by_cases ha : key a ∈ seen
    · simp only [dedupByAux, if_pos ha]
      exact ih seen
    · simp only [dedupByAux, if_neg ha]
      refine List.Pairwise.cons ?_ (ih (key a :: seen))
      intro b hb he
      exact dedupByAux_not_seen key as (key a :: seen) b hb
        (he ▸ List.mem_cons_self (key a) seen)

theorem dedupByAux_coverage {α : Type} (key : α → String) :
    ∀ (l : List α) (seen : List String) (x : α), x ∈ l →
      key x ∈ seen ∨ ∃ y ∈ dedupByAux key seen l, key y = key x := by
  intro l
  induction l with
  | nil => intro seen x h; simp at h
  | cons a as ih =>
    intro seen x h
    rcases List.mem_cons.mp h with rfl | h2
    · by_cases ha : key x ∈ seen
      · exact Or.inl ha
      · right
        refine ⟨x, ?_, rfl⟩
        simp only [dedupByAux, if_neg ha]
        exact List.mem_cons_self _ _
    · by_cases ha : key a ∈ seen
      · rcases ih seen x h2 with h3 | ⟨y, hy, hk⟩
        · exact Or.inl h3
        · right
          refine ⟨y, ?_, hk⟩
          simp only [dedupByAux, if_pos ha]
          exact hy
      · rcases ih (key a :: seen) x h2 with h3 | ⟨y, hy, hk⟩
        · rcases List.mem_cons.mp h3 with heq | hs
          · right
            refine ⟨a, ?_, heq.symm⟩
            simp only [dedupByAux, if_neg ha]
            exact List.mem_cons_self _ _
          · exact Or.inl hs
        · right
          refine ⟨y, ?_, hk⟩
          simp only [dedupByAux, if_neg ha]
          exact List.mem_cons_of_mem _ hy

theorem dedupByAux_first {α : Type} (key : α → String) :
    ∀ (pre : List α) (x : α) (post : List α) (seen : List String),
      key x ∉ seen → (∀ p ∈ pre, key p ≠ key x) →
      x ∈ dedupByAux key seen (pre ++ x :: post) := by
  intro pre
  induction pre with
  | nil =>
    intro x post seen hx _
    simp only [List.nil_append, dedupByAux, if_neg hx]
    exact List.mem_cons_self _ _
  | cons p ps ih =>
    intro x post seen hx hpre
    have hpx : key p ≠ key x := hpre p (List.mem_cons_self _ _)
    by_cases hp : key p ∈ seen
    · simp only [List.cons_append, dedupByAux, if_pos hp]
      exact ih x post seen hx (fun q hq => hpre q (List.mem_cons_of_mem _ hq))
    · simp only [List.cons_append, dedupByAux, if_neg hp]
      refine List.mem_cons_of_mem _ ?_
      refine ih x post (key p :: seen) ?_ (fun q hq => hpre q (List.mem_cons_of_mem _ hq))
      intro hmem
      rcases List.mem_cons.mp hmem with heq | hs
      · exact hpx heq.symm
      · exact hx hs

/-- C8 counterexample: two documents whose names differ only in case are both
kept by `deduplicateDocuments` — the source compares document names exactly
(`provider.go:773` uses `doc.Name` with no case folding), so document
deduplication is NOT by case-normalized equality as claimed. -/
theorem deduplicate_counterexample :
    deduplicateDocuments
        [{ Name := "Skript.pdf", Content := "a" }, { Name := "SKRIPT.pdf", Content := "b" }] =
      [{ Name := "Skript.pdf", Content := "a" }, { Name := "SKRIPT.pdf", Content := "b" }] ∧
    goToLower "Skript.pdf" = goToLower "SKRIPT.pdf" ∧
    ("Skript.pdf" : String) ≠ "SKRIPT.pdf" := by
  refine ⟨by decide, by decide, by decide⟩

/-- C8 (amended): topic deduplication is by case-normalized name equality,
but document deduplication is by exact (case-sensitive) name equality; in
both, the first occurrence of each key is kept, later duplicates are dropped,
and the relative order of survivors is preserved (the output is a sublist of
the input with pairwise-distinct keys, every input key is represented, and any
element with no earlier equal-key element survives). -/
theorem deduplicate_amended :
    (∀ docs : List Document,
        List.Sublist (deduplicateDocuments docs) docs ∧
        (deduplicateDocuments docs).Pairwise (fun a b => a.Name ≠ b.Name) ∧
        (∀ d ∈ docs, ∃ y ∈ deduplicateDocuments docs, y.Name = d.Name) ∧
        (∀ pre d post, docs = pre ++ d :: post → (∀ p ∈ pre, p.Name ≠ d.Name) →
            d ∈ deduplicateDocuments docs)) ∧
    (∀ ts : List Topic,
        List.Sublist (deduplicateTopics ts) ts ∧
        (deduplicateTopics ts).Pairwise
          (fun a b => goToLower a.Name ≠ goToLower b.Name) ∧
        (∀ t ∈ ts, ∃ y ∈ deduplicateTopics ts, goToLower y.Name = goToLower t.Name) ∧
        (∀ pre t post, ts = pre ++ t :: post →
            (∀ p ∈ pre, goToLower p.Name ≠ goToLower t.Name) →
            t ∈ deduplicateTopics ts)) := by
  constructor
  · intro docs
    refine ⟨dedupByAux_sublist _ docs [], dedupByAux_pairwise _ docs [], ?_, ?_⟩
    · intro d hd
      rcases dedupByAux_coverage (fun d => d.Name) docs [] d hd with h | h
      · simp at h
      · exact h
    · intro pre d post hdocs hpre
      rw [hdocs]
      exact dedupByAux_first _ pre d post [] (by simp) hpre
  · intro ts
    refine ⟨dedupByAux_sublist _ ts [], dedupByAux_pairwise _ ts [], ?_, ?_⟩
    · intro t ht
      rcases dedupByAux_coverage (fun t => goToLower t.Name) ts [] t ht with h | h
      · simp at h
      · exact h
    · intro pre t post hts hpre
      rw [hts]
      exact dedupByAux_first _ pre t post [] (by simp) hpre

/-- Witness for the amended C8: on a concrete list with a case-variant topic
duplicate, the first occurrence survives (first-occurrence part applied with
its hypotheses discharged) and each input name is still represented. -/
theorem deduplicate_amended_witness :
    tAlpha ∈ deduplicateTopics [tAlpha, { tAlpha with Name := "ALPHA" }, tBeta] ∧
    { Name := "Skript.pdf", Content := "a" } ∈
      deduplicateDocuments
        [{ Name := "Skript.pdf", Content := "a" }, { Name := "Skript.pdf", Content := "b" }] := by
  constructor
  · exact (deduplicate_amended.2 [tAlpha, { tAlpha with Name := "ALPHA" }, tBeta]).2.2.2
      [] tAlpha [{ tAlpha with Name := "ALPHA" }, tBeta] rfl (by simp)
  · exact (deduplicate_amended.1
        [{ Name := "Skript.pdf", Content := "a" }, { Name := "Skript.pdf", Content := "b" }]).2.2.2
      [] { Name := "Skript.pdf", Content := "a" } [{ Name := "Skript.pdf", Content := "b" }]
      rfl (by simp)

/- ===================== Claim C4: priority ranking sort ===================== -/

theorem innerPass_length {α : Type} (key : α → Nat) :
    ∀ (l : List α) (cur : α), (innerPass key cur l).2.length = l.length := by
  intro l
  induction l with
  | nil => intro cur; simp [innerPass]
  | cons x xs ih =>
    intro cur
    by_cases h : key x < key cur
    · simp [innerPass, h, ih]
    · simp [innerPass, h, ih]

theorem innerPass_perm {α : Type} (key : α → Nat) :
    ∀ (l : List α) (cur : α),
      List.Perm ((innerPass key cur l).1 :: (innerPass key cur l).2) (cur :: l) := by
  intro l
  induction l with
  | nil => intro cur; simp [innerPass]
  | cons x xs ih =>
    intro cur
    by_cases h : key x < key cur
    · simp only [innerPass, if_pos h]
      exact (List.Perm.swap cur (innerPass key x xs).1 (innerPass key x xs).2).trans
        (List.Perm.cons cur (ih x))
    · simp only [innerPass, if_neg h]
      exact ((List.Perm.swap x (innerPass key cur xs).1 (innerPass key cur xs).2).trans
        (List.Perm.cons x (ih cur))).trans (List.Perm.swap cur x xs)

theorem innerPass_min {α : Type} (key : α → Nat) :
    ∀ (l : List α) (cur : α),
      key (innerPass key cur l).1 ≤ key cur ∧
        ∀ x ∈ (innerPass key cur l).2, key (innerPass key cur l).1 ≤ key x := by
  intro l
  induction l with
  | nil => intro cur; simp [innerPass]
  | cons x xs ih =>
    intro cur
    by_cases h : key x < key cur
    · simp only [innerPass, if_pos h]
      obtain ⟨h1, h2⟩ := ih x
      refine ⟨le_trans h1 (le_of_lt h), ?_⟩
      intro y hy
      rcases List.mem_cons.mp hy with rfl | hy2
      · exact le_trans h1 (le_of_lt h)
      · exact h2 y hy2
    · simp only [innerPass, if_neg h]
      obtain ⟨h1, h2⟩ := ih cur
      refine ⟨h1, ?_⟩
      intro y hy
      rcases List.mem_cons.mp hy with rfl | hy2
      · exact le_trans h1 (le_of_not_lt h)
      · exact h2 y hy2

theorem selSortAux_perm {α : Type} (key : α → Nat) :
    ∀ (fuel : Nat) (l : List α), List.Perm (selSortAux key fuel l) l := by
  intro fuel
  induction fuel with
  | zero => intro l; simp [selSortAux]
  | succ n ih =>
    intro l
    cases l with
    | nil => simp [selSortAux]
    | cons x xs =>
      simp only [selSortAux]
      exact (List.Perm.cons _ (ih (innerPass key x xs).2)).trans (innerPass_perm key xs x)

theorem selSortAux_sorted {α : Type} (key : α → Nat) :
    ∀ (fuel : Nat) (l : List α), l.length ≤ fuel →
      (selSortAux key fuel l).Pairwise (fun a b => key a ≤ key b) := by
  intro fuel
  induction fuel with
  | zero =>
    intro l hl
    have hnil : l = [] := List.length_eq_zero.mp (Nat.le_zero.mp hl)
    subst hnil
    simp [selSortAux]
  | succ n ih =>
    intro l hl
    cases l with
    | nil => simp [selSortAux]
    | cons x xs =>
      simp only [selSortAux]
      have hlen : (innerPass key x xs).2.length ≤ n := by
        rw [innerPass_length key xs x]
        simp at hl
        omega
      refine List.Pairwise.cons ?_ (ih _ hlen)
      intro b hb
      have hmem : b ∈ (innerPass key x xs).2 :=
        (List.Perm.mem_iff (selSortAux_perm key n _)).mp hb
      exact (innerPass_min key xs x).2 b hmem

theorem selSort_perm {α : Type} (key : α → Nat) (l : List α) :
    List.Perm (selSort key l) l :=
  selSortAux_perm key l.length l

theorem selSort_sorted {α : Type} (key : α → Nat) (l : List α) :
    (selSort key l).Pairwise (fun a b => key a ≤ key b) :=
  selSortAux_sorted key l.length l (Nat.le_refl _)

/-- C4 counterexample: with ranking ["gamma"] over topics
[Alpha, Beta, Gamma], the claim predicts [Gamma, Alpha, Beta] (ranked topic
first, unranked topics keeping their relative order); the swap loop of
`provider.go:745-761` instead produces [Gamma, Beta, Alpha] — the unranked
topics Alpha and Beta are reordered. -/
theorem prioritizeWithExams_counterexample :
    prioritizeWithExams (some ["gamma"]) [tAlpha, tBeta, tGamma] [examDoc] =
      [tGamma, tBeta, tAlpha] ∧
    [tGamma, tBeta, tAlpha] ≠ [tGamma, tAlpha, tBeta] := by
  refine ⟨by decide, by decide⟩

/-- C4 (amended): when the prioritization call succeeds and yields a ranking,
the reordered list is a permutation of the topics sorted by non-decreasing
key, where a topic's key is its (case-insensitively matched,
last-occurrence-wins) index in the ranking and 999 for topics absent from
the ranking — so ranked topics come in ascending rank order before unranked
ones (for fewer than 999 ranking entries), but the relative order of unranked
(and equal-key) topics among themselves is NOT necessarily preserved. -/
theorem prioritizeWithExams_amended (priority : List String) (topics : List Topic)
    (examDocs : List Document) (h : examDocs ≠ []) :
    List.Perm (prioritizeWithExams (some priority) topics examDocs) topics ∧
    List.Pairwise (fun a b => priorityKey priority a ≤ priorityKey priority b)
      (prioritizeWithExams (some priority) topics examDocs) := by
  cases examDocs with
  | nil => exact absurd rfl h
  | cons d ds =>
    cases topics with
    | nil => exact ⟨List.Perm.refl [], List.Pairwise.nil⟩
    | cons t ts =>
      have hred : prioritizeWithExams (some priority) (t :: ts) (d :: ds) =
          sortTopicsByPriority priority (t :: ts) := rfl
      rw [hred]
      exact ⟨selSort_perm _ _, selSort_sorted _ _⟩

/-- Witness for the amended C4: the reordering at the counterexample input is
a permutation of the input sorted by the priority key. -/
theorem prioritizeWithExams_amended_witness :
    List.Perm (prioritizeWithExams (some ["gamma"]) [tAlpha, tBeta, tGamma] [examDoc])
      [tAlpha, tBeta, tGamma] ∧
    List.Pairwise (fun a b => priorityKey ["gamma"] a ≤ priorityKey ["gamma"] b)
      (prioritizeWithExams (some ["gamma"]) [tAlpha, tBeta, tGamma] [examDoc]) :=
  prioritizeWithExams_amended ["gamma"] [tAlpha, tBeta, tGamma] [examDoc] (by decide)

/- ===================== Claim C6: pipeline error contract ===================== -/

/-- C6 counterexample: one document is supplied and its analysis fails (as it
would under a cancelled operation) — zero documents are usable — yet the
pipeline returns a nil error with an empty topic list instead of the hard
error the claim requires (`provider.go:540` is the only return and always
returns `nil` as the error). -/
theorem AnalyzeDocumentsParallel_counterexample :
    AnalyzeDocumentsParallel (fun _ => Except.error "context canceled") none
        [{ Name := "Skript.pdf", Content := "Inhalt" }] = Except.ok [] := by
  decide

/-- C6 (amended): the pipeline entry point NEVER returns an error: for every
analysis oracle, ranking outcome, and document list it returns a nil error
with a best-effort (possibly empty) topic list — also when the operation was
cancelled (all analyses fail) or zero documents were usable; in particular an
empty document list yields `Except.ok []`. -/
theorem AnalyzeDocumentsParallel_amended :
    ∀ (analyze : Document → Except String (List Topic))
      (rankResult : Option (List String)) (documents : List Document),
      (∃ ts, AnalyzeDocumentsParallel analyze rankResult documents = Except.ok ts) ∧
      AnalyzeDocumentsParallel analyze rankResult [] = Except.ok [] := by
  intro analyze rankResult documents
  exact ⟨⟨_, rfl⟩, rfl⟩

/- ===================== Claim C10: model switch framing ===================== -/

/-- C10: when a fast model is configured, non-empty, and differs from the
provider's current (non-empty) model, both `analyzeOneDocument` and
`prioritizeWithExams` run the generation under the fast model and restore the
provider to exactly its entry state on every return path (the deferred
`SetModel(oldModel)` runs regardless of the oracle's result, which is
universally quantified here), leaving all other provider state unchanged. -/
theorem modelSwitch_frame
    (fastModel : String) (gen genP : String → Except String (List Topic))
    (s : ProviderState) (topics : List Topic) (examDocs : List Document)
    (hfast : fastModel ≠ "") (hdiff : fastModel ≠ s.defaultModel)
    (hold : s.defaultModel ≠ "") :
    ((analyzeOneDocumentState fastModel gen s).finalState = s ∧
      (analyzeOneDocumentState fastModel gen s).usedModel = fastModel) ∧
    (examDocs ≠ [] → topics ≠ [] →
      (prioritizeWithExamsState fastModel genP s topics examDocs).finalState = s ∧
      (prioritizeWithExamsState fastModel genP s topics examDocs).usedModel = fastModel) := by
  refine ⟨⟨?_, ?_⟩, ?_⟩
  · simp [analyzeOneDocumentState, GetCurrentModel, SetModel, hfast, hdiff, hold]
  · simp [analyzeOneDocumentState, GetCurrentModel, SetModel, hfast, hdiff]
  · intro hex ht
    cases examDocs with
    | nil => exact absurd rfl hex
    | cons d ds =>
      cases topics with
      | nil => exact absurd rfl ht
      | cons t ts =>
        constructor
        · simp [prioritizeWithExamsState, GetCurrentModel, SetModel, hfast, hold]
        · simp [prioritizeWithExamsState, GetCurrentModel, SetModel, hfast]

/-- Witness for C10 at the program's own model names: current model
"qwen2.5:7b", fast model "llama3.2:3b"; both calls restore the entry state
and run under the fast model. -/
theorem modelSwitch_frame_witness :
    ((analyzeOneDocumentState "llama3.2:3b" (fun _ => Except.ok [tAlpha])
        { baseURL := "http://localhost:11434", defaultModel := "qwen2.5:7b" }).finalState =
      { baseURL := "http://localhost:11434", defaultModel := "qwen2.5:7b" } ∧
      (analyzeOneDocumentState "llama3.2:3b" (fun _ => Except.ok [tAlpha])
        { baseURL := "http://localhost:11434", defaultModel := "qwen2.5:7b" }).usedModel =
        "llama3.2:3b") ∧
    ((prioritizeWithExamsState "llama3.2:3b" (fun _ => Except.error "boom")
        { baseURL := "http://localhost:11434", defaultModel := "qwen2.5:7b" }
        [tAlpha] [examDoc]).finalState =
      { baseURL := "http://localhost:11434", defaultModel := "qwen2.5:7b" } ∧
      (prioritizeWithExamsState "llama3.2:3b" (fun _ => Except.error "boom")
        { baseURL := "http://localhost:11434", defaultModel := "qwen2.5:7b" }
        [tAlpha] [examDoc]).usedModel = "llama3.2:3b") :=
  ⟨(modelSwitch_frame "llama3.2:3b" (fun _ => Except.ok [tAlpha])
      (fun _ => Except.error "boom")
      { baseURL := "http://localhost:11434", defaultModel := "qwen2.5:7b" }
      [tAlpha] [examDoc] (by decide) (by decide) (by decide)).1,
    (modelSwitch_frame "llama3.2:3b" (fun _ => Except.ok [tAlpha])
      (fun _ => Except.error "boom")
      { baseURL := "http://localhost:11434", defaultModel := "qwen2.5:7b" }
      [tAlpha] [examDoc] (by decide) (by decide) (by decide)).2
      (by decide) (by decide)⟩
